import Mathlib

/-!
Formal model of the Private-Blockchain repository (src/block.js and the final
draft of the Blockchain class in src/unnamed/part_000, lines 394-823).

Modelling conventions:
* JS strings are `List Char`; JS numbers that hold integers are `Int`.
* A block hash in JS is either `null` or a SHA256 hex digest string.  The digest
  value space is modelled by the inductive `JsHash`: `JsHash.null` is the JS
  `null`, and the `digest` constructor makes the space rich enough that an
  injective (ideal, collision-free) digest function on blocks exists, which is
  what the witness instantiation `blockToHash` provides.  The development is
  parametric in the digest function `sha256 : Block → JsHash`, which models
  `SHA256(JSON.stringify(block)).toString()`: `JSON.stringify` on the block
  record is injective for the field shapes this program produces, so the
  composite is modelled as a single function of the block record.
* `new Date().getTime().toString().slice(0, -3)` (Unix seconds) is modelled by
  an explicit `now : Int` argument threaded into each operation that reads the
  clock.
* Promises that settle exactly once are modelled by returning the settled
  outcome together with the final mutable state; rejection values are `.error`.
-/

/-- Value space for JS block-hash fields: either the JS `null` or an opaque
digest.  The `digest` constructor carries one block worth of fields so that an
injective digest function on blocks into this space exists. -/
inductive JsHash where
  | null : JsHash
  | digest (hash : JsHash) (height : Int) (body : List Char) (time : Int)
      (previousBlockHash : JsHash) : JsHash
deriving DecidableEq, Inhabited

/-- Payload values this program stores in a block body: the genesis marker
object with a single `data` field, or the star-submission object with `owner`
and `star` fields (src/unnamed/part_000 line 435 and line 556). -/
inductive Payload where
  | dataObj (d : List Char)
  | starObj (owner : List Char) (s : List Char)
deriving DecidableEq, Inhabited

/-- Lower-case hex digit of a value below 16, as produced by
`Buffer.toString(hex)`. -/
def toHexDigit (n : Nat) : Char :=
  if n < 10 then Char.ofNat (48 + n) else Char.ofNat (87 + n)

/-- Numeric value of a hex digit character; other characters map to 0, matching
the garbage-in tolerance of the `hex2ascii` package (it never throws). -/
def hexDigitVal (c : Char) : Nat :=
  if 48 ≤ c.toNat ∧ c.toNat ≤ 57 then c.toNat - 48
  else if 97 ≤ c.toNat ∧ c.toNat ≤ 102 then c.toNat - 87
  else 0

/-- Model of `Buffer(s).toString(hex)` on an ASCII string: each character
becomes two lower-case hex digits (src/block.js line 21). -/
def hexEncodeChars : List Char → List Char
  | [] => []
  | c :: cs => toHexDigit (c.toNat / 16) :: toHexDigit (c.toNat % 16) :: hexEncodeChars cs

/-- Model of `hex2ascii` (src/block.js line 115): consecutive pairs of hex
digits are turned back into characters; a trailing odd digit is dropped. -/
def hexDecodeChars : List Char → List Char
  | c1 :: c2 :: cs => Char.ofNat (16 * hexDigitVal c1 + hexDigitVal c2) :: hexDecodeChars cs
  | _ => []

/-- Model of `JSON.stringify` on the two payload object shapes this program
constructs, for payload strings that need no JSON escaping. -/
def stringifyPayload : Payload → List Char
  | .dataObj d => "\x7b\"data\":\"".data ++ d ++ "\"\x7d".data
  | .starObj o s => "\x7b\"owner\":\"".data ++ o ++ "\",\"star\":\"".data ++ s ++ "\"\x7d".data

/-- Reads a JSON string literal body up to the closing quote; `none` when the
closing quote is missing. -/
def takeStringLit : List Char → Option (List Char × List Char)
  | [] => none
  | c :: cs =>
    if c = '"' then some ([], cs)
    else
      match takeStringLit cs with
      | some (s, r) => some (c :: s, r)
      | none => none

/-- Drops an expected literal sequence from the front of a list; `none` when
the list does not start with it. -/
def stripChars : List Char → List Char → Option (List Char)
  | [], l => some l
  | _ :: _, [] => none
  | p :: ps, c :: cs => if p = c then stripChars ps cs else none

/-- Parses the remainder of a data-shaped JSON object after its opening
`\x7b"data":"` prefix: the data string, its closing quote and the brace. -/
def parseDataShape (rest : List Char) : Option Payload :=
  match takeStringLit rest with
  | some (d, r) => if r = "\x7d".data then some (.dataObj d) else none
  | none => none

/-- Parses the remainder of a star-shaped JSON object after its owner string:
the literal `,"star":"`, the star string, its closing quote and the brace. -/
def parseStarTail (o : List Char) (r : List Char) : Option Payload :=
  match stripChars ",\"star\":\"".data r with
  | some r2 =>
    match takeStringLit r2 with
    | some (st, r3) => if r3 = "\x7d".data then some (.starObj o st) else none
    | none => none
  | none => none

/-- Parses the remainder of a star-shaped JSON object after its opening
`\x7b"owner":"` prefix. -/
def parseStarShape (rest : List Char) : Option Payload :=
  match takeStringLit rest with
  | some (o, r) => parseStarTail o r
  | none => none

/-- Model of `JSON.parse` (src/block.js line 118) restricted to the two payload
object shapes this program writes into block bodies; `none` models the parse
throwing a `SyntaxError` on any other input. -/
def parsePayload (l : List Char) : Option Payload :=
  match stripChars "\x7b\"data\":\"".data l with
  | some rest => parseDataShape rest
  | none =>
    match stripChars "\x7b\"owner\":\"".data l with
    | some rest => parseStarShape rest
    | none => none

/-- Body encoder used by the Block constructor:
`Buffer(JSON.stringify(data)).toString(hex)` (src/block.js line 21). -/
def encodeBody (p : Payload) : List Char :=
  hexEncodeChars (stringifyPayload p)

/-- Body decoder used by `getBData`: `JSON.parse(hex2ascii(body))`
(src/block.js lines 115-118). -/
def decodeBody (body : List Char) : Option Payload :=
  parsePayload (hexDecodeChars body)

/-- Character that `JSON.stringify` emits literally inside a string (printable
ASCII other than the quote and the backslash).  The round-trip law is stated
for payload strings made of such characters. -/
def plainChar (c : Char) : Bool :=
  decide (32 ≤ c.toNat) && decide (c.toNat < 127) && decide (c ≠ '"') && decide (c ≠ '\\')

/-- Valid payload: every character of its strings is a `plainChar`. -/
def validPayload : Payload → Bool
  | .dataObj d => d.all plainChar
  | .starObj o s => o.all plainChar && s.all plainChar

/-- Model of the Block record (src/block.js lines 18-24).  Field order matches
the constructor assignment order, which is the `JSON.stringify` order. -/
structure Block where
  hash : JsHash
  height : Int
  body : List Char
  time : Int
  previousBlockHash : JsHash
deriving DecidableEq, Inhabited

/-- Model of the Block constructor `new Block(data)` (src/block.js lines
18-24): null hash, height 0, hex-encoded body, time 0, null previous hash. -/
def Block.new (d : Payload) : Block :=
  { hash := JsHash.null
    height := 0
    body := encodeBody d
    time := 0
    previousBlockHash := JsHash.null }

/-- Injective digest used for concrete witnesses: an ideal collision-free stand
in for SHA256, embedding the whole digested block into the digest space. -/
def blockToHash (b : Block) : JsHash :=
  JsHash.digest b.hash b.height b.body b.time b.previousBlockHash

/-- Model of `Block.validate` (src/block.js lines 38-94): save the stored hash,
clear it, recompute the digest over the cleared block, restore the stored hash,
and resolve with the comparison result.  Every control path calls `resolve`
(true or false); the promise never rejects.  The returned pair is (resolved
boolean, the block as left behind by the call). -/
def Block.validate (sha256 : Block → JsHash) (b : Block) : Bool × Block :=
  let blockHash := b.hash
  let cleared : Block := { b with hash := JsHash.null }
  let recalculatedHash := sha256 cleared
  let restored : Block := { cleared with hash := blockHash }
  (decide (recalculatedHash = blockHash), restored)

/-- Outcomes of `Block.getBData` (src/block.js lines 105-142).  `parseThrow`
models `JSON.parse` raising a SyntaxError: that happens synchronously, before
the promise is created, so it propagates as a thrown exception to the caller.
`genesisReject` models the promise rejecting with the genesis-block message. -/
inductive BDataErr where
  | parseThrow
  | genesisReject
deriving DecidableEq

deriving instance DecidableEq for Except

/-- Model of `Block.getBData` (src/block.js lines 105-142): hex-decode the
body, JSON-parse it, and resolve with the object unless its `data` field equals
the genesis marker, in which case reject. -/
def Block.getBData (b : Block) : Except BDataErr Payload :=
  let decodedData := hexDecodeChars b.body
  match parsePayload decodedData with
  | none => Except.error BDataErr.parseThrow
  | some obj =>
    match obj with
    | .dataObj d =>
      if d ≠ "Genesis Block".data then Except.ok (.dataObj d)
      else Except.error BDataErr.genesisReject
    | .starObj o s => Except.ok (.starObj o s)

/-- State of the Blockchain class (src/unnamed/part_000 lines 422-426): the
chain array and the cached height. -/
structure Blockchain where
  chain : List Block
  height : Int
deriving DecidableEq, Inhabited

/-- Ways `_addBlock` can reject: `typeError` models reading `.hash` of an
undefined array element (only possible when the height cache is out of step
with the array), `pushError` models the explicit reject branch taken when
`push` returns a falsy value. -/
inductive AddErr where
  | typeError
  | pushError
deriving DecidableEq

/-- Model of `Blockchain._addBlock` (src/unnamed/part_000 lines 463-497):
assign the timestamp, the height (previous height plus one), the previous
block hash (null for the genesis append, otherwise the hash of
`chain[previousBlockHeight]`), then the digest of the block as assembled so
far, push, and bump the cached height when push returns a truthy new length.
The push of a nonempty array always returns its new positive length, so the
`pushError` branch requires `newChain.length = 0` and is dead code; in that
branch the push has already happened but the height is not bumped. -/
def Blockchain._addBlock (sha256 : Block → JsHash) (now : Int) (st : Blockchain)
    (block : Block) : Except AddErr Block × Blockchain :=
  let b1 : Block := { block with time := now }
  let previousBlockHeight : Int := st.height
  let b2 : Block := { b1 with height := previousBlockHeight + 1 }
  let previousHash? : Option JsHash :=
    if previousBlockHeight = -1 then some JsHash.null
    else if previousBlockHeight < 0 then none
    else
      match st.chain[previousBlockHeight.toNat]? with
      | some b => some b.hash
      | none => none
  match previousHash? with
  | none => (Except.error AddErr.typeError, st)
  | some ph =>
    let b3 : Block := { b2 with previousBlockHash := ph }
    let b4 : Block := { b3 with hash := sha256 b3 }
    let newChain := st.chain ++ [b4]
    if newChain.length ≠ 0 then
      (Except.ok b4, { chain := newChain, height := st.height + 1 })
    else
      (Except.error AddErr.pushError, { chain := newChain, height := st.height })

/-- Model of `initializeChain` (src/unnamed/part_000 lines 433-439): when the
height is -1, append a genesis block built from `\x7b data: Genesis Block \x7d`. -/
def Blockchain.initializeChain (sha256 : Block → JsHash) (now : Int)
    (st : Blockchain) : Blockchain :=
  if st.height = -1 then
    (st._addBlock sha256 now (Block.new (Payload.dataObj "Genesis Block".data))).2
  else st

/-- Model of the Blockchain constructor (src/unnamed/part_000 lines 422-426):
empty chain, height -1, then `initializeChain`. -/
def Blockchain.make (sha256 : Block → JsHash) (now : Int) : Blockchain :=
  Blockchain.initializeChain sha256 now { chain := [], height := -1 }

/-- Ledger states reachable in the program: construction (which appends the
genesis block) followed by any sequence of `_addBlock` calls, each with its own
clock reading and input block. -/
inductive Reachable (sha256 : Block → JsHash) : Blockchain → Prop where
  | init (now : Int) : Reachable sha256 (Blockchain.make sha256 now)
  | step {st : Blockchain} (now : Int) (b : Block) (h : Reachable sha256 st) :
      Reachable sha256 (Blockchain._addBlock sha256 now st b).2

/-- Result of the external `bitcoinMessage.verify` call: it returns a boolean
or throws. -/
inductive VerifyResult where
  | ok
  | fail
  | throws
deriving DecidableEq

/-- Settled outcome of the promise returned by `submitStar`. -/
inductive SubmitOutcome where
  | resolved (b : Block)
  | rejected (msg : String)
deriving DecidableEq

/-- Digits of a decimal numeral folded into a number. -/
def digitsToNat : List Char → Nat → Nat
  | [], acc => acc
  | c :: cs, acc => digitsToNat cs (acc * 10 + (c.toNat - 48))

/-- Model of `parseInt` on the strings this program feeds it: skip spaces, an
optional sign, then a maximal run of decimal digits; `none` models `NaN`. -/
def parseIntJs (l : List Char) : Option Int :=
  let l1 := l.dropWhile (fun c => c = ' ')
  let signAndRest : Bool × List Char :=
    match l1 with
    | '-' :: rest => (true, rest)
    | '+' :: rest => (false, rest)
    | _ => (false, l1)
  let ds := signAndRest.2.takeWhile Char.isDigit
  if ds = [] then none
  else
    let n : Int := (digitsToNat ds 0 : Nat)
    some (if signAndRest.1 then -n else n)

/-- Model of `message.split(':')`. -/
def splitOnColonChars : List Char → List (List Char)
  | [] => [[]]
  | c :: cs =>
    match splitOnColonChars cs with
    | [] => [[]]
    | seg :: rest => if c = ':' then [] :: seg :: rest else (c :: seg) :: rest

/-- Model of `submitStar` (src/unnamed/part_000 lines 537-564).  Faithful to
the control flow of the source: after the expiry check, `bitcoinMessage.verify`
is awaited inside a try block, but its boolean return value is discarded, and
when it throws the catch calls `reject` without returning, so execution falls
through to the add-block section in every non-expired case.  A promise settles
with its first `resolve` or `reject`; later settlement attempts are ignored,
but the side effects on the chain still happen. -/
def Blockchain.submitStar (sha256 : Block → JsHash)
    (verify : List Char → List Char → List Char → VerifyResult)
    (now : Int) (st : Blockchain)
    (address message signature star : List Char) : SubmitOutcome × Blockchain :=
  let messageTime := parseIntJs ((splitOnColonChars message).getD 1 [])
  let currentTime := now
  let expired : Bool :=
    match messageTime with
    | some t => decide (t + 5 * 60 ≤ currentTime)
    | none => false
  if expired then
    (SubmitOutcome.rejected "Date expired.", st)
  else
    match verify message address signature with
    | VerifyResult.throws =>
      let block := Block.new (Payload.starObj address star)
      let r := st._addBlock sha256 now block
      (SubmitOutcome.rejected "Invalid signature.", r.2)
    | _ =>
      let block := Block.new (Payload.starObj address star)
      let r := st._addBlock sha256 now block
      match r.1 with
      | Except.ok addedBlock => (SubmitOutcome.resolved addedBlock, r.2)
      | Except.error _ => (SubmitOutcome.rejected "Could not add the star.", r.2)

/-- Loop of `getStarsByWalletAddress` (src/unnamed/part_000 lines 619-635):
`for (i = 1; i <= height; i++)`, written with the remaining iteration count as
explicit fuel (`i` runs while `i <= height`, which is exactly `height.toNat`
iterations starting from `i = 1`).  Reading `chain[i]` past the end of the
array gives undefined and calling `getBData` on it throws, rejecting the query
(`TypeError`).  A `JSON.parse` failure inside `getBData` is thrown
synchronously (the parse runs before the promise is created), so it aborts the
loop and rejects the query (`SyntaxError`).  A `getBData` promise rejection
(the genesis-marker case) lands in the attached catch, which only logs, so the
scan continues.  The stars array is filled by the then-callbacks, which all run
before the caller observes the resolved array, in loop order. -/
def getStarsAux (chain : List Block) (address : List Char) :
    Nat → Nat → Except String (List (List Char))
  | _, 0 => Except.ok []
  | i, remaining + 1 =>
    match chain[i]? with
    | none => Except.error "TypeError"
    | some bi =>
      match bi.getBData with
      | Except.error BDataErr.parseThrow => Except.error "SyntaxError"
      | Except.error BDataErr.genesisReject => getStarsAux chain address (i + 1) remaining
      | Except.ok (Payload.dataObj _) => getStarsAux chain address (i + 1) remaining
      | Except.ok (Payload.starObj owner s) =>
        if owner = address then
          (getStarsAux chain address (i + 1) remaining).map (fun stars => s :: stars)
        else
          getStarsAux chain address (i + 1) remaining

/-- Model of `getStarsByWalletAddress` (src/unnamed/part_000 lines 613-639). -/
def Blockchain.getStarsByWalletAddress (st : Blockchain) (address : List Char) :
    Except String (List (List Char)) :=
  getStarsAux st.chain address 1 st.height.toNat

/-- Owner-and-star selector used by the specification-side owner query: the
`star` field when the block decodes to a star payload whose owner matches. -/
def starFilter (address : List Char) (b : Block) : Option (List Char) :=
  match b.getBData with
  | Except.ok (Payload.starObj owner s) => if owner = address then some s else none
  | _ => none

/-- Specification-side owner query, from the spec wording: the `star` field of
every non-genesis block whose decoded `owner` equals the address, in chain
order, for comparison with the implementation. -/
def starsOfOwner (st : Blockchain) (address : List Char) : List (List Char) :=
  (st.chain.drop 1).filterMap (starFilter address)

/-- Entries of the `errorLog` built by `validateChain`, tagged with the block
index the source interpolates into the message string. -/
inductive VError where
  | hashMismatch (i : Nat)
  | linkageBroken (i : Nat)
deriving DecidableEq

/-- Loop of `validateChain` (src/unnamed/part_000 lines 652-669).  For each
block the source runs `chain[i].validate().then().catch(push hashMismatch)`;
`Block.validate` resolves on every control path and never rejects, so that
catch handler (the only place a `hashMismatch` entry is pushed) never runs and
the resolved boolean is discarded by the argumentless `then()`.  The linkage
check then compares `chain[i].previousBlockHash` against the previous block
hash (starting from `null`) and pushes a `linkageBroken` entry on mismatch. -/
def validateChainAux (sha256 : Block → JsHash) :
    List Block → Nat → JsHash → List VError
  | [], _, _ => []
  | b :: rest, i, previousHash =>
    let _resolvedBool := (Block.validate sha256 b).1
    let currentHash := b.previousBlockHash
    let here := if currentHash ≠ previousHash then [VError.linkageBroken i] else []
    here ++ validateChainAux sha256 rest (i + 1) b.hash

/-- Model of `validateChain` (src/unnamed/part_000 lines 647-672): scans every
block in order, never stops early, and resolves with the full error list. -/
def Blockchain.validateChain (sha256 : Block → JsHash) (st : Blockchain) :
    List VError :=
  validateChainAux sha256 st.chain 0 JsHash.null

/-- Boolean test for a fulfilled `Except` result. -/
def exceptIsOk {ε α : Type} : Except ε α → Bool
  | Except.ok _ => true
  | Except.error _ => false

/-- Boolean test for a fulfilled `submitStar` promise. -/
def SubmitOutcome.isResolved : SubmitOutcome → Bool
  | SubmitOutcome.resolved _ => true
  | SubmitOutcome.rejected _ => false

/-- Concrete star block used by the witnesses below. -/
def blkW : Block := Block.new (Payload.starObj "A".data "S1".data)

/-- Concrete two-block ledger: construction at time 0, then one star append at
time 1, with the ideal digest `blockToHash`. -/
def stW : Blockchain :=
  ((Blockchain.make blockToHash 0)._addBlock blockToHash 1 blkW).2

/-- Concrete three-block ledger: `stW` plus a second star of the same owner. -/
def stW2 : Blockchain :=
  (stW._addBlock blockToHash 2 (Block.new (Payload.starObj "A".data "S2".data))).2

/-- Tampered copy of `stW`: the body of the block at height 1 is replaced (its
hash field is left untouched), the scenario of the tamper-detection tests. -/
def stWbad : Blockchain :=
  { stW with chain := stW.chain.set 1 { (stW.chain.getD 1 default) with body := "00".data } }

/-- Tampered copy of `stW2`: the body of the block at height 1 is replaced by
characters that do not decode to JSON, while the block at height 2 remains a
decodable star of owner `A`. -/
def stW2bad : Blockchain :=
  { stW2 with chain := stW2.chain.set 1 { (stW2.chain.getD 1 default) with body := "zz".data } }

/-- Concrete hashed block used by the tamper-detection witness: the content. -/
def coreW : Block :=
  { hash := JsHash.null, height := 1, body := "ab".data, time := 5,
    previousBlockHash := JsHash.null }

/-- Concrete hashed block used by the tamper-detection witness: `coreW` with
its digest filled in, so that `Block.validate` succeeds on it. -/
def validW : Block := { coreW with hash := blockToHash coreW }

/-- Copy of `validW` with a mutated body and the original hash. -/
def tamperedW : Block := { validW with body := "ac".data }

/-- Ledger well-formedness invariant: the cached height is the chain length
minus one, every stored block records its own index as height, and every block
past the genesis links to the hash of its predecessor. -/
def WFChain (st : Blockchain) : Prop :=
  st.height = (st.chain.length : Int) - 1 ∧
  ∀ h : Nat, h < st.chain.length →
    (st.chain.getD h default).height = (h : Int) ∧
    (0 < h → (st.chain.getD h default).previousBlockHash = (st.chain.getD (h - 1) default).hash)

/-- Helper: `List.getD` of an append, index inside the left list. -/
theorem getD_append_lt (l1 l2 : List Block) (n : Nat) (hn : n < l1.length) :
    (l1 ++ l2).getD n default = l1.getD n default := by
  rw [List.getD_eq_getElem?_getD, List.getElem?_append_left hn, ← List.getD_eq_getElem?_getD]

/-- Helper: `List.getD` of an append at the length of the left list. -/
theorem getD_append_self (l1 : List Block) (b : Block) :
    (l1 ++ [b]).getD l1.length default = b := by
  rw [List.getD_eq_getElem?_getD, List.getElem?_concat_length]
  rfl

/-- Characterization of `_addBlock` on a ledger whose cached height agrees with
the chain length: the call resolves with the assembled block, which is pushed,
and the cached height is bumped. -/
theorem addBlock_spec (sha256 : Block → JsHash) (now : Int) (st : Blockchain)
    (block : Block) (hsync : st.height = (st.chain.length : Int) - 1) :
    ∃ b4 : Block,
      st._addBlock sha256 now block =
        (Except.ok b4, { chain := st.chain ++ [b4], height := st.height + 1 }) ∧
      b4.height = st.height + 1 ∧ b4.time = now ∧ b4.body = block.body ∧
      b4.previousBlockHash =
        (if st.chain.length = 0 then JsHash.null
         else (st.chain.getD (st.chain.length - 1) default).hash) ∧
      b4.hash = sha256 { b4 with hash := block.hash } := by
  rcases st with ⟨chain, height⟩
  simp only at hsync
  rcases chain with _ | ⟨c0, crest⟩
  · have h1 : height = -1 := by simpa using hsync
    subst h1
    simp only [Blockchain._addBlock]
    norm_num
  · have hpos : (0 : Int) ≤ height := by
      simp only [List.length_cons] at hsync
      omega
    have hne : ¬(height = -1) := by omega
    have hnlt : ¬(height < 0) := by omega
    have htoNat : height.toNat = (c0 :: crest).length - 1 := by
      simp only [List.length_cons] at hsync ⊢
      omega
    have hlt : height.toNat < (c0 :: crest).length := by
      simp only [List.length_cons] at htoNat ⊢
      omega
    simp only [Blockchain._addBlock, if_neg hne, if_neg hnlt,
      List.getElem?_eq_getElem hlt]
    refine ⟨_, rfl, rfl, rfl, rfl, ?_, rfl⟩
    rw [if_neg (by simp), List.getD_eq_getElem?_getD, ← htoNat,
      List.getElem?_eq_getElem hlt]
    rfl

/-- Construction establishes the ledger invariant. -/
theorem wf_make (sha256 : Block → JsHash) (now : Int) :
    WFChain (Blockchain.make sha256 now) := by
  obtain ⟨b4, heq, hh, -, -, -, -⟩ := addBlock_spec sha256 now ⟨[], -1⟩
    (Block.new (Payload.dataObj "Genesis Block".data)) (by simp)
  rw [show Blockchain.make sha256 now =
      (Blockchain._addBlock sha256 now ⟨[], (-1 : Int)⟩
        (Block.new (Payload.dataObj "Genesis Block".data))).2 from rfl, heq]
  refine ⟨by simp, ?_⟩
  intro h hlt
  simp only [List.nil_append, List.length_cons, List.length_nil] at hlt
  have h0 : h = 0 := by omega
  subst h0
  refine ⟨?_, fun hpos => absurd hpos (by omega)⟩
  simpa using hh

/-- A successful append preserves the ledger invariant. -/
theorem wf_step (sha256 : Block → JsHash) (now : Int) (b : Block) (st : Blockchain)
    (hwf : WFChain st) : WFChain (Blockchain._addBlock sha256 now st b).2 := by
  obtain ⟨hsync, hblocks⟩ := hwf
  obtain ⟨b4, heq, hh, -, -, hprev, -⟩ := addBlock_spec sha256 now st b hsync
  rw [heq]
  refine ⟨?_, ?_⟩
  · simp only [List.length_append, List.length_cons, List.length_nil]
    omega
  · intro h hlt
    simp only [List.length_append, List.length_cons, List.length_nil] at hlt
    by_cases hcase : h < st.chain.length
    · rw [getD_append_lt _ _ _ hcase]
      refine ⟨(hblocks h hcase).1, fun hpos => ?_⟩
      rw [getD_append_lt _ _ _ (by omega)]
      exact (hblocks h hcase).2 hpos
    · have hcase2 : h = st.chain.length := by omega
      subst hcase2
      rw [getD_append_self]
      refine ⟨?_, fun hpos => ?_⟩
      · rw [hh, hsync]
        omega
      · rw [hprev, if_neg (by omega), getD_append_lt _ _ _ (by omega)]

/-- Every reachable ledger state satisfies the invariant. -/
theorem reachable_wf (sha256 : Block → JsHash) {st : Blockchain}
    (hr : Reachable sha256 st) : WFChain st := by
  induction hr with
  | init now => exact wf_make sha256 now
  | step now b h ih => exact wf_step sha256 now b _ ih

/-- C1: for every ledger state reachable by construction followed by any
sequence of successful appends, and every height h greater than 0, the block at
chain index h links to the hash of the block at index h - 1, records h as its
own height, and the cached height equals the chain length minus one. -/
theorem C1_append_linkage (sha256 : Block → JsHash) (st : Blockchain)
    (hr : Reachable sha256 st) (h : Nat) (hpos : 0 < h) (hlt : h < st.chain.length) :
    (st.chain.getD h default).previousBlockHash = (st.chain.getD (h - 1) default).hash ∧
    (st.chain.getD h default).height = (h : Int) ∧
    st.height = (st.chain.length : Int) - 1 := by
  obtain ⟨hsync, hblocks⟩ := reachable_wf sha256 hr
  exact ⟨(hblocks h hlt).2 hpos, (hblocks h hlt).1, hsync⟩

/-- Witness for C1 at a concrete reachable two-block ledger and h = 1. -/
theorem C1_append_linkage_witness :
    (stW.chain.getD 1 default).previousBlockHash = (stW.chain.getD 0 default).hash ∧
    (stW.chain.getD 1 default).height = (1 : Int) ∧
    stW.height = (stW.chain.length : Int) - 1 :=
  C1_append_linkage blockToHash stW
    (Reachable.step 1 blkW (Reachable.init 0)) 1 (by decide) (by decide)

/-- Helper: the reject branch guarded by a falsy push return value requires
the pushed array to have length zero and is therefore dead code. -/
theorem addBlock_no_pushError (sha256 : Block → JsHash) (now : Int)
    (st2 : Blockchain) (b2 : Block) :
    (st2._addBlock sha256 now b2).1 ≠ Except.error AddErr.pushError := by
  simp only [Blockchain._addBlock]
  split
  · simp
  · split
    · simp
    · rename_i hlen
      exfalso
      apply hlen
      simp

/-- C10: on a ledger whose cached height agrees with the chain length, an
append always resolves with the stored block for every input block; and on
every ledger whatsoever, the explicit reject branch after the push (the
`AppendError` case) requires the pushed array to have length zero and can
never be taken. -/
theorem C10_append_always_resolves (sha256 : Block → JsHash) (now : Int)
    (st : Blockchain) (block : Block)
    (hsync : st.height = (st.chain.length : Int) - 1) :
    (∃ b4 : Block,
      st._addBlock sha256 now block =
        (Except.ok b4, { chain := st.chain ++ [b4], height := st.height + 1 })) ∧
    (∀ (st2 : Blockchain) (b2 : Block),
      (st2._addBlock sha256 now b2).1 ≠ Except.error AddErr.pushError) := by
  obtain ⟨b4, heq, -⟩ := addBlock_spec sha256 now st block hsync
  exact ⟨⟨b4, heq⟩, fun st2 b2 => addBlock_no_pushError sha256 now st2 b2⟩

/-- Witness for C10 at a concrete ledger and block. -/
theorem C10_append_always_resolves_witness :
    exceptIsOk ((Blockchain.make blockToHash 0)._addBlock blockToHash 1 blkW).1 = true := by
  obtain ⟨⟨b4, heq⟩, -⟩ := C10_append_always_resolves blockToHash 1
    (Blockchain.make blockToHash 0) blkW (by decide)
  rw [heq]
  rfl

/-- Helper: any block a successful append resolves with carries as hash the
digest of itself with the hash field as it was on the input block (which is
null for every block the program passes in, since the constructor nulls it). -/
theorem addBlock_ok_hash (sha256 : Block → JsHash) (now : Int) (st : Blockchain)
    (block b4 : Block) (hok : (st._addBlock sha256 now block).1 = Except.ok b4) :
    b4.hash = sha256 { b4 with hash := block.hash } := by
  simp only [Blockchain._addBlock] at hok
  split at hok
  · simp at hok
  · split at hok
    · simp only [Prod.fst] at hok
      cases hok
      rfl
    · simp at hok

/-- C2: every block just appended by a successful `_addBlock` call on a
constructor-fresh block (hash still null, as at both call sites) validates to
true, the call leaves the block unchanged, and a repeated call still resolves
true; the model of `validate` returns a boolean on every path, never an
error. -/
theorem C2_validate_after_append (sha256 : Block → JsHash) (now : Int)
    (st : Blockchain) (block : Block) (hnull : block.hash = JsHash.null)
    (b4 : Block) (hok : (st._addBlock sha256 now block).1 = Except.ok b4) :
    (Block.validate sha256 b4).1 = true ∧
    (Block.validate sha256 b4).2 = b4 ∧
    (Block.validate sha256 (Block.validate sha256 b4).2).1 = true := by
  have hh := addBlock_ok_hash sha256 now st block b4 hok
  rw [hnull] at hh
  have h1 : (Block.validate sha256 b4).1 = true := by
    simp only [Block.validate, decide_eq_true_eq]
    exact hh.symm
  exact ⟨h1, rfl, h1⟩

/-- Witness for C2 at the concrete two-block ledger `stW`. -/
theorem C2_validate_after_append_witness :
    (Block.validate blockToHash (stW.chain.getD 1 default)).1 = true ∧
    (Block.validate blockToHash (stW.chain.getD 1 default)).2 = stW.chain.getD 1 default ∧
    (Block.validate blockToHash (Block.validate blockToHash (stW.chain.getD 1 default)).2).1 = true :=
  C2_validate_after_append blockToHash 1 (Blockchain.make blockToHash 0) blkW
    (by decide) (stW.chain.getD 1 default) (by decide)

/-- Helper: the witness digest is collision-free. -/
theorem blockToHash_injective : Function.Injective blockToHash := by
  intro a b h
  cases a
  cases b
  simpa [blockToHash, JsHash.digest.injEq, Block.mk.injEq] using h

/-- C7: under a collision-free digest, mutating any field other than `hash` of
a block that currently validates (as every stored block does) makes
`Block.validate` return false. -/
theorem C7_tamper_detection (sha256 : Block → JsHash)
    (hinj : Function.Injective sha256) (b btampered : Block)
    (hvalid : (Block.validate sha256 b).1 = true)
    (hhash : btampered.hash = b.hash) (hne : btampered ≠ b) :
    (Block.validate sha256 btampered).1 = false := by
  simp only [Block.validate, decide_eq_true_eq] at hvalid
  simp only [Block.validate, decide_eq_false_iff_not]
  intro hcontra
  apply hne
  have hcl : ({ btampered with hash := JsHash.null } : Block)
      = { b with hash := JsHash.null } := by
    apply hinj
    rw [hvalid, hcontra, hhash]
  cases b
  cases btampered
  simp only [Block.mk.injEq] at hcl ⊢
  exact ⟨hhash, hcl.2⟩

/-- Witness for C7: a concrete valid block whose body is then mutated. -/
theorem C7_tamper_detection_witness :
    (Block.validate blockToHash tamperedW).1 = false :=
  C7_tamper_detection blockToHash blockToHash_injective validW tamperedW
    (by decide) (by decide) (by decide)

/-- C5: when the challenge message embeds timestamp t, an elapsed time of at
least 300 seconds makes `submitStar` reject with the expiry message before and
regardless of signature verification, leaving the ledger unchanged; an elapsed
time of exactly 299 seconds with a verification that returns true makes it
resolve with the appended block. -/
theorem C5_expiry_boundary (sha256 : Block → JsHash)
    (verify : List Char → List Char → List Char → VerifyResult) (now : Int)
    (st : Blockchain) (address message signature star : List Char) (t : Int)
    (hparse : parseIntJs ((splitOnColonChars message).getD 1 []) = some t)
    (hsync : st.height = (st.chain.length : Int) - 1) :
    (300 ≤ now - t →
      Blockchain.submitStar sha256 verify now st address message signature star
        = (SubmitOutcome.rejected "Date expired.", st)) ∧
    (now - t = 299 → verify message address signature = VerifyResult.ok →
      ∃ b : Block,
        Blockchain.submitStar sha256 verify now st address message signature star
          = (SubmitOutcome.resolved b,
             { chain := st.chain ++ [b], height := st.height + 1 })) := by
  constructor
  · intro hexp
    have hcond : decide (t + 5 * 60 ≤ now) = true := decide_eq_true (by omega)
    simp only [Blockchain.submitStar, hparse, hcond, if_true]
  · intro h299 hok
    have hcond : decide (t + 5 * 60 ≤ now) = false := decide_eq_false (by omega)
    obtain ⟨b4, heq, -⟩ :=
      addBlock_spec sha256 now st (Block.new (Payload.starObj address star)) hsync
    refine ⟨b4, ?_⟩
    simp only [Blockchain.submitStar, hparse, hcond, hok, heq, if_false]
    rfl

/-- Witness for C5: elapsed 300 rejects, elapsed 299 with a true verification
resolves. -/
theorem C5_expiry_boundary_witness :
    (Blockchain.submitStar blockToHash (fun _ _ _ => VerifyResult.ok) 400
        (Blockchain.make blockToHash 0) "A".data "A:100:starRegistry".data
        "sig".data "S2".data
      = (SubmitOutcome.rejected "Date expired.", Blockchain.make blockToHash 0)) ∧
    (Blockchain.submitStar blockToHash (fun _ _ _ => VerifyResult.ok) 399
        (Blockchain.make blockToHash 0) "A".data "A:100:starRegistry".data
        "sig".data "S2".data).1.isResolved = true := by
  constructor
  · exact (C5_expiry_boundary blockToHash (fun _ _ _ => VerifyResult.ok) 400
      (Blockchain.make blockToHash 0) "A".data "A:100:starRegistry".data
      "sig".data "S2".data 100 (by decide) (by decide)).1 (by decide)
  · obtain ⟨b, hb⟩ := (C5_expiry_boundary blockToHash (fun _ _ _ => VerifyResult.ok) 399
      (Blockchain.make blockToHash 0) "A".data "A:100:starRegistry".data
      "sig".data "S2".data 100 (by decide) (by decide)).2 (by decide) rfl
    rw [hb]
    rfl

/-- C4: evaluation of `submitStar` at concrete non-expired inputs where
verification returns false (the promise resolves with the appended block and
the chain grows) and where verification throws (the promise rejects with the
invalid-signature message, yet the chain still grows): the model exhibits the
missing enforcement in the source, which discards the boolean returned by
`bitcoinMessage.verify` and keeps executing after the reject call. -/
theorem C4_invalid_signature_not_enforced :
    ((Blockchain.submitStar blockToHash (fun _ _ _ => VerifyResult.fail) 150 stW
        "A".data "A:100:starRegistry".data "sig".data "S2".data).1).isResolved = true ∧
    (Blockchain.submitStar blockToHash (fun _ _ _ => VerifyResult.fail) 150 stW
        "A".data "A:100:starRegistry".data "sig".data "S2".data).2.chain.length
      = stW.chain.length + 1 ∧
    (Blockchain.submitStar blockToHash (fun _ _ _ => VerifyResult.throws) 150 stW
        "A".data "A:100:starRegistry".data "sig".data "S2".data).1
      = SubmitOutcome.rejected "Invalid signature." ∧
    (Blockchain.submitStar blockToHash (fun _ _ _ => VerifyResult.throws) 150 stW
        "A".data "A:100:starRegistry".data "sig".data "S2".data).2.chain.length
      = stW.chain.length + 1 := by
  decide

/-- C3: evaluation of `validateChain` at a concrete reachable ledger whose
height-1 block body was tampered with: the block no longer validates, yet the
resolved error log is empty, because the only push of a hash-mismatch entry
sits in a catch handler that `Block.validate` (which resolves false rather
than rejecting) can never trigger. -/
theorem C3_hashMismatch_never_reported :
    (Block.validate blockToHash (stWbad.chain.getD 1 default)).1 = false ∧
    Blockchain.validateChain blockToHash stWbad = [] := by
  decide

/-- Helper: the owner-query loop, run with fuel equal to the number of indices
left, returns the spec-side filter of the remaining blocks whenever none of
them makes `JSON.parse` throw. -/
theorem getStarsAux_eq (chain : List Block) (address : List Char) :
    ∀ (n i : Nat), n = chain.length - i →
      (∀ b ∈ chain.drop i, b.getBData ≠ Except.error BDataErr.parseThrow) →
      getStarsAux chain address i n
        = Except.ok ((chain.drop i).filterMap (starFilter address)) := by
  intro n
  induction n with
  | zero =>
    intro i hn hp
    have hge : chain.length ≤ i := by omega
    rw [List.drop_eq_nil_of_le hge]
    rfl
  | succ m ih =>
    intro i hn hp
    have hlt : i < chain.length := by omega
    have hdrop : chain.drop i = chain[i] :: chain.drop (i + 1) :=
      List.drop_eq_getElem_cons hlt
    rw [hdrop] at hp ⊢
    have hp0 : chain[i].getBData ≠ Except.error BDataErr.parseThrow :=
      hp _ (List.mem_cons_self _ _)
    have hprest : ∀ b ∈ chain.drop (i + 1),
        b.getBData ≠ Except.error BDataErr.parseThrow :=
      fun b hb => hp b (List.mem_cons_of_mem _ hb)
    have ihx := ih (i + 1) (by omega) hprest
    cases hbd : chain[i].getBData with
    | error e =>
      cases e with
      | parseThrow => exact absurd hbd hp0
      | genesisReject =>
        simp only [getStarsAux, List.getElem?_eq_getElem hlt, hbd, ihx,
          List.filterMap_cons, starFilter]
    | ok p =>
      cases p with
      | dataObj d =>
        simp only [getStarsAux, List.getElem?_eq_getElem hlt, hbd, ihx,
          List.filterMap_cons, starFilter]
      | starObj o s =>
        by_cases ho : o = address
        · simp only [getStarsAux, List.getElem?_eq_getElem hlt, hbd, ihx,
            List.filterMap_cons, starFilter, ho, if_pos rfl]
          rfl
        · simp only [getStarsAux, List.getElem?_eq_getElem hlt, hbd, ihx,
            List.filterMap_cons, starFilter, if_neg ho]

/-- C6 (amended): on a ledger whose cached height agrees with the chain length
and none of whose non-genesis blocks makes `JSON.parse` throw, the owner query
scans exactly the blocks at height at least 1, skips those whose payload
accessor rejects (the genesis-marker case) without aborting, and resolves with
exactly the star fields of the blocks whose decoded owner equals the address,
in chain order. -/
theorem C6_owner_filter (st : Blockchain) (address : List Char)
    (hsync : st.height = (st.chain.length : Int) - 1)
    (hparse : ∀ b ∈ st.chain.drop 1, b.getBData ≠ Except.error BDataErr.parseThrow) :
    st.getStarsByWalletAddress address = Except.ok (starsOfOwner st address) := by
  have hfuel : st.height.toNat = st.chain.length - 1 := by omega
  unfold Blockchain.getStarsByWalletAddress starsOfOwner
  rw [hfuel]
  exact getStarsAux_eq st.chain address (st.chain.length - 1) 1 (by omega) hparse

/-- Witness for the amended C6 at a concrete three-block ledger with two stars
of the same owner. -/
theorem C6_owner_filter_witness :
    stW2.getStarsByWalletAddress "A".data = Except.ok (starsOfOwner stW2 "A".data) :=
  C6_owner_filter stW2 "A".data (by decide) (by decide)

/-- Counterexample to C6 as stated: in a ledger whose height-1 block body does
not decode (while the height-2 block is a decodable star of the queried
owner), the query does not skip the undecodable block and resolve with the
remaining stars; it aborts with the propagated parse error instead. -/
theorem C6_undecodable_aborts :
    stW2bad.getStarsByWalletAddress "A".data = Except.error "SyntaxError" ∧
    starsOfOwner stW2bad "A".data = ["S2".data] := by
  decide

/-- Helper: hex digits decode back to the value they encode. -/
theorem hexDigitVal_toHexDigit : ∀ n, n < 16 → hexDigitVal (toHexDigit n) = n := by
  decide

/-- Helper: the hex layer of the codec round-trips on byte-sized characters. -/
theorem hexDecode_encode (l : List Char) (h : ∀ c ∈ l, c.toNat < 256) :
    hexDecodeChars (hexEncodeChars l) = l := by
  induction l with
  | nil => rfl
  | cons c cs ih =>
    have hc : c.toNat < 256 := h c (List.mem_cons_self _ _)
    have h1 : hexDigitVal (toHexDigit (c.toNat / 16)) = c.toNat / 16 :=
      hexDigitVal_toHexDigit _ (by omega)
    have h2 : hexDigitVal (toHexDigit (c.toNat % 16)) = c.toNat % 16 :=
      hexDigitVal_toHexDigit _ (by omega)
    simp only [hexEncodeChars, hexDecodeChars, h1, h2]
    rw [show 16 * (c.toNat / 16) + c.toNat % 16 = c.toNat from by omega,
      Char.ofNat_toNat, ih (fun c2 hc2 => h c2 (List.mem_cons_of_mem _ hc2))]

/-- Helper: reading a string literal that contains no quote stops exactly at
the appended closing quote. -/
theorem takeStringLit_append (s r : List Char) (h : '"' ∉ s) :
    takeStringLit (s ++ '"' :: r) = some (s, r) := by
  induction s with
  | nil => simp [takeStringLit]
  | cons c cs ih =>
    have hc : ¬(c = '"') := by
      intro hcc
      subst hcc
      exact h (List.mem_cons_self _ _)
    have hcs : '"' ∉ cs := fun hm => h (List.mem_cons_of_mem _ hm)
    show takeStringLit (c :: (cs ++ '"' :: r)) = some (c :: cs, r)
    unfold takeStringLit
    rw [if_neg hc, ih hcs]

/-- Helper: a plain character is byte-sized and is not a quote. -/
theorem plainChar_facts (c : Char) (h : plainChar c = true) :
    c.toNat < 256 ∧ c ≠ '"' := by
  simp only [plainChar, Bool.and_eq_true, decide_eq_true_eq] at h
  obtain ⟨⟨⟨h32, h127⟩, hq⟩, hbs⟩ := h
  exact ⟨by omega, hq⟩

/-- Helper: every character of the serialized form of a valid payload is
byte-sized. -/
theorem stringify_lt (p : Payload) (h : validPayload p = true) :
    ∀ c ∈ stringifyPayload p, c.toNat < 256 := by
  cases p with
  | dataObj d =>
    simp only [validPayload, List.all_eq_true] at h
    intro c hc
    simp only [stringifyPayload, List.mem_append] at hc
    rcases hc with (hc | hc) | hc
    · exact (by decide : ∀ c2 ∈ ("\x7b\"data\":\"".data), c2.toNat < 256) c hc
    · exact (plainChar_facts c (h c hc)).1
    · exact (by decide : ∀ c2 ∈ ("\"\x7d".data), c2.toNat < 256) c hc
  | starObj o s =>
    simp only [validPayload, Bool.and_eq_true, List.all_eq_true] at h
    intro c hc
    simp only [stringifyPayload, List.mem_append] at hc
    rcases hc with (((hc | hc) | hc) | hc) | hc
    · exact (by decide : ∀ c2 ∈ ("\x7b\"owner\":\"".data), c2.toNat < 256) c hc
    · exact (plainChar_facts c (h.1 c hc)).1
    · exact (by decide : ∀ c2 ∈ ("\",\"star\":\"".data), c2.toNat < 256) c hc
    · exact (plainChar_facts c (h.2 c hc)).1
    · exact (by decide : ∀ c2 ∈ ("\"\x7d".data), c2.toNat < 256) c hc

/-- Helper: stripping an expected literal sequence from a list that starts
with it returns the remainder. -/
theorem stripChars_append (p l : List Char) : stripChars p (p ++ l) = some l := by
  induction p with
  | nil => rfl
  | cons c cs ih => simp [stripChars, ih]

/-- Helper: the serialized star shape does not start with the data shape. -/
theorem stripData_of_owner (l : List Char) :
    stripChars "\x7b\"data\":\"".data ("\x7b\"owner\":\"".data ++ l) = none := by
  rfl

/-- Helper: parsing a serialized data shape recovers the data string. -/
theorem parse_data_shape (d : List Char) (hq : '"' ∉ d) :
    parsePayload ("\x7b\"data\":\"".data ++ (d ++ '"' :: "\x7d".data))
      = some (Payload.dataObj d) := by
  unfold parsePayload
  rw [stripChars_append]
  show parseDataShape (d ++ '"' :: "\x7d".data) = some (Payload.dataObj d)
  unfold parseDataShape
  rw [takeStringLit_append d _ hq]
  simp

/-- Helper: parsing a serialized star shape recovers owner and star. -/
theorem parse_star_shape (o s : List Char) (hqo : '"' ∉ o) (hqs : '"' ∉ s) :
    parsePayload ("\x7b\"owner\":\"".data
        ++ (o ++ '"' :: (",\"star\":\"".data ++ (s ++ '"' :: "\x7d".data))))
      = some (Payload.starObj o s) := by
  unfold parsePayload
  rw [stripData_of_owner, stripChars_append]
  show parseStarShape (o ++ '"' :: (",\"star\":\"".data ++ (s ++ '"' :: "\x7d".data)))
    = some (Payload.starObj o s)
  unfold parseStarShape
  rw [takeStringLit_append o _ hqo]
  show parseStarTail o (",\"star\":\"".data ++ (s ++ '"' :: "\x7d".data))
    = some (Payload.starObj o s)
  unfold parseStarTail
  rw [stripChars_append]
  show (match takeStringLit (s ++ '"' :: "\x7d".data) with
        | some (st, r3) => if r3 = "\x7d".data then some (Payload.starObj o st) else none
        | none => none) = some (Payload.starObj o s)
  rw [takeStringLit_append s _ hqs]
  simp

/-- Helper: the JSON layer of the codec round-trips on valid payloads. -/
theorem parse_stringify (p : Payload) (h : validPayload p = true) :
    parsePayload (stringifyPayload p) = some p := by
  cases p with
  | dataObj d =>
    have hq : '"' ∉ d := by
      intro hm
      simp only [validPayload, List.all_eq_true] at h
      exact absurd rfl (plainChar_facts _ (h _ hm)).2
    have hshape : stringifyPayload (Payload.dataObj d)
        = "\x7b\"data\":\"".data ++ (d ++ '"' :: "\x7d".data) := by
      simp only [stringifyPayload, List.append_assoc]
    rw [hshape]
    exact parse_data_shape d hq
  | starObj o s =>
    simp only [validPayload, Bool.and_eq_true, List.all_eq_true] at h
    have hqo : '"' ∉ o := fun hm => absurd rfl (plainChar_facts _ (h.1 _ hm)).2
    have hqs : '"' ∉ s := fun hm => absurd rfl (plainChar_facts _ (h.2 _ hm)).2
    have hshape : stringifyPayload (Payload.starObj o s)
        = "\x7b\"owner\":\"".data
          ++ (o ++ '"' :: (",\"star\":\"".data ++ (s ++ '"' :: "\x7d".data))) := by
      simp only [stringifyPayload, List.append_assoc]
      rfl
    rw [hshape]
    exact parse_star_shape o s hqo hqs

/-- Helper: full codec round trip, used both by the round-trip claim and by
the genesis claim. -/
theorem decode_encode (p : Payload) (h : validPayload p = true) :
    decodeBody (encodeBody p) = some p := by
  unfold decodeBody encodeBody
  rw [hexDecode_encode _ (stringify_lt p h), parse_stringify p h]

/-- C8: the encoder used by the Block constructor and the decoder used by
`getBData` compose to the identity on valid payload values. -/
theorem C8_codec_roundtrip (p : Payload) (h : validPayload p = true) :
    decodeBody (encodeBody p) = some p :=
  decode_encode p h

/-- Witness for C8 at a concrete star payload. -/
theorem C8_codec_roundtrip_witness :
    validPayload (Payload.starObj "ab".data "cd".data) = true ∧
    decodeBody (encodeBody (Payload.starObj "ab".data "cd".data))
      = some (Payload.starObj "ab".data "cd".data) :=
  ⟨by decide, C8_codec_roundtrip (Payload.starObj "ab".data "cd".data) (by decide)⟩

/-- C9: a freshly constructed ledger, after its self-initialization, has
height 0, contains exactly one block, that block has a null previous block
hash, and its payload accessor rejects with the genesis message rather than
returning data. -/
theorem C9_genesis_invariant (sha256 : Block → JsHash) (now : Int) :
    (Blockchain.make sha256 now).height = 0 ∧
    (Blockchain.make sha256 now).chain.length = 1 ∧
    ((Blockchain.make sha256 now).chain.getD 0 default).previousBlockHash = JsHash.null ∧
    ((Blockchain.make sha256 now).chain.getD 0 default).getBData
      = Except.error BDataErr.genesisReject := by
  refine ⟨rfl, rfl, rfl, ?_⟩
  have hbody : ((Blockchain.make sha256 now).chain.getD 0 default).body
      = encodeBody (Payload.dataObj "Genesis Block".data) := rfl
  have hdec := decode_encode (Payload.dataObj "Genesis Block".data) (by decide)
  unfold decodeBody at hdec
  simp only [Block.getBData]
  rw [hbody, hdec]
  simp
